import Mathlib

/-
Verification of the course symbol geometry engine and proximity-based visit
tracker of the forest-team repository.

The definitions below are shallow embeddings of the TypeScript sources:
  - src/src/shared/types                      (data model, reconstructed from use sites)
  - src/src/store/visitTrackingStore.ts       (visit-tracking state and actions)
  - src/src/shared/utils/coordinate.ts        (Haversine distance, isWithinDistance)
  - src/src/features/gps/hooks (part_013)     (useControlVisitTracking effect body)
  - src/src/features/course/services/courseRenderer.ts
      (calculateLineWidth, extractUniqueStarts/Finishes/Controls,
       calculateBearing, getStartTriangleVertex, getCircleEdgePoint,
       createCoursePolylines, calculateDistance, averageAngles,
       calculateLabelOffset, findNonOverlappingPosition)

JavaScript numbers are modelled as real numbers; JS `Set`/`Map` are modelled as
`Finset String` / insertion-ordered association lists, matching the iteration
order the code relies on.  `a % b` on nonnegative operands (the only uses) is
truncated remainder, embedded by `jsMod`.
-/

open Classical

namespace ForestTeam

/-- WGS84 geographic position `{ lat, lng }` in degrees. -/
@[ext]
structure Position where
  lat : ℝ
  lng : ℝ

/-- A control: unique instance id, human-readable code, sequence number within
its course, and geographic position. -/
structure Control where
  id : String
  code : String
  number : ℕ
  position : Position

/-- A course: identity, display fields, start and finish positions, and the
ordered list of controls. -/
structure Course where
  id : String
  name : String
  color : String
  visible : Bool
  start : Position
  finish : Position
  controls : List Control

/-- A transformed coordinate pair `[lat, lng]` as produced by a
`CoordinateTransform`. -/
abbrev Coord := ℝ × ℝ

/-- The default coordinate transform `pos => [pos.lat, pos.lng]`. -/
def defaultTransform (p : Position) : Coord := (p.lat, p.lng)

noncomputable section

/-- Truncation toward zero, the rounding used by the JS `%` operator. -/
def jsTrunc (q : ℝ) : ℝ := if q < 0 then (⌈q⌉ : ℝ) else (⌊q⌋ : ℝ)

/-- JS remainder `a % b` (truncated division remainder). -/
def jsMod (a b : ℝ) : ℝ := a - b * jsTrunc (a / b)

/-- `Math.atan2 y x`: the argument of the complex number `x + y*i`, in
`(-pi, pi]`. -/
def atan2 (y x : ℝ) : ℝ := Complex.arg ⟨x, y⟩

/-- `metersPerDegreeLat` constant used throughout courseRenderer.ts. -/
def metersPerDegreeLat : ℝ := 111320

/-- `metersPerDegreeLng` at a given latitude, as computed in courseRenderer.ts:
`111320 * Math.cos(lat * Math.PI / 180)`. -/
def metersPerDegreeLng (lat : ℝ) : ℝ :=
  111320 * Real.cos (lat * Real.pi / 180)

/-! ### Visit tracker (visitTrackingStore.ts, coordinate.ts, useControlVisitTracking) -/

/-- `calculateDistance` from src/src/shared/utils/coordinate.ts: great-circle
(Haversine) distance in meters. -/
def haversineDistance (pos1 pos2 : Position) : ℝ :=
  let R : ℝ := 6371e3
  let phi1 := pos1.lat * Real.pi / 180
  let phi2 := pos2.lat * Real.pi / 180
  let dphi := (pos2.lat - pos1.lat) * Real.pi / 180
  let dlam := (pos2.lng - pos1.lng) * Real.pi / 180
  let a := Real.sin (dphi / 2) * Real.sin (dphi / 2) +
    Real.cos phi1 * Real.cos phi2 * Real.sin (dlam / 2) * Real.sin (dlam / 2)
  let c := 2 * atan2 (Real.sqrt a) (Real.sqrt (1 - a))
  R * c

/-- `isWithinDistance` from coordinate.ts. -/
def isWithinDistance (position target : Position) (threshold : ℝ) : Prop :=
  haversineDistance position target ≤ threshold

/-- The state of the visit-tracking store (visitTrackingStore.ts). -/
structure VisitTrackingState where
  visitedControls : Finset String
  visitDistanceThreshold : ℝ
  isTrackingEnabled : Bool

/-- The store's initial state: empty set, 10 m threshold, tracking enabled. -/
def initialVisitTrackingState : VisitTrackingState := ⟨∅, 10, true⟩

/-- `markControlAsVisited` action. -/
def markControlAsVisited (s : VisitTrackingState) (controlId : String) :
    VisitTrackingState :=
  { s with visitedControls := insert controlId s.visitedControls }

/-- `resetVisitedControls` action. -/
def resetVisitedControls (s : VisitTrackingState) : VisitTrackingState :=
  { s with visitedControls := ∅ }

/-- `setVisitDistanceThreshold` action. -/
def setVisitDistanceThreshold (s : VisitTrackingState) (distance : ℝ) :
    VisitTrackingState :=
  { s with visitDistanceThreshold := distance }

/-- `setTrackingEnabled` action. -/
def setTrackingEnabled (s : VisitTrackingState) (enabled : Bool) :
    VisitTrackingState :=
  { s with isTrackingEnabled := enabled }

/-- `isControlVisited` query. -/
def isControlVisited (s : VisitTrackingState) (controlId : String) : Prop :=
  controlId ∈ s.visitedControls

/-- The controls of the visible courses, as gathered by the
`useControlVisitTracking` effect (filter by visible course id, then flatten). -/
def visibleControlsOf (courses : List Course) (visibleCourseIds : Finset String) :
    List Control :=
  (courses.filter (fun c => decide (c.id ∈ visibleCourseIds))).flatMap
    (fun c => c.controls)

/-- One iteration of the `visibleControls.forEach` body in
`useControlVisitTracking`: skip controls already visited, otherwise mark the
control visited when the GPS position is within the threshold. -/
def visitTrackingStep (s : VisitTrackingState) (pos : Position) (c : Control) :
    VisitTrackingState :=
  if isControlVisited s c.id then s
  else if isWithinDistance pos c.position s.visitDistanceThreshold then
    markControlAsVisited s c.id
  else s

/-- The `useControlVisitTracking` effect body: a no-op without a GPS fix or
with tracking disabled, otherwise one `visitTrackingStep` per visible control.
The GPS sample is modelled by its only consumed field, the position. -/
def useControlVisitTracking (gpsPosition : Option Position)
    (courses : List Course) (visibleCourseIds : Finset String)
    (s : VisitTrackingState) : VisitTrackingState :=
  match gpsPosition with
  | none => s
  | some pos =>
    if s.isTrackingEnabled = false then s
    else (visibleControlsOf courses visibleCourseIds).foldl
      (fun st c => visitTrackingStep st pos c) s

/-- The operations of the visit tracker, for stating state-machine
invariants. -/
inductive VisitTrackerOp where
  | onPosition (gpsPosition : Option Position) (courses : List Course)
      (visibleCourseIds : Finset String)
  | setThreshold (distance : ℝ)
  | setTracking (enabled : Bool)
  | reset

/-- Apply one visit-tracker operation to the store state. -/
def applyVisitTrackerOp (s : VisitTrackingState) :
    VisitTrackerOp → VisitTrackingState
  | .onPosition g cs vis => useControlVisitTracking g cs vis s
  | .setThreshold d => setVisitDistanceThreshold s d
  | .setTracking b => setTrackingEnabled s b
  | .reset => resetVisitedControls s

/-! ### Geo-scale and bearing utilities (courseRenderer.ts) -/

/-- `calculateLineWidth(zoom, latitude)`: Web-Mercator resolution at the given
zoom and latitude, target line width 5.25 m on the ground, clamped to
`[1, 10]` pixels. -/
def calculateLineWidth (zoom latitude : ℝ) : ℝ :=
  let resolution := 156543.04 * Real.cos (latitude * Real.pi / 180) / (2 : ℝ) ^ zoom
  let targetWidthMeters : ℝ := 5.25
  let pixelWidth := targetWidthMeters / resolution
  max 1 (min 10 pixelWidth)

/-- `calculateBearing(from, to)`: great-circle initial bearing in degrees,
normalized by `(bearing + 360) % 360`. -/
def calculateBearing (pfrom pto : Position) : ℝ :=
  let lat1 := pfrom.lat * Real.pi / 180
  let lat2 := pto.lat * Real.pi / 180
  let dLng := (pto.lng - pfrom.lng) * Real.pi / 180
  let y := Real.sin dLng * Real.cos lat2
  let x := Real.cos lat1 * Real.sin lat2 -
    Real.sin lat1 * Real.cos lat2 * Real.cos dLng
  let bearing := atan2 y x * 180 / Real.pi
  jsMod (bearing + 360) 360

/-- `getStartTriangleVertex(start, firstControl, transform)`: with a first
control, the triangle vertex aimed at it; with `null`, the transformed start
position itself (early return in the code). -/
def getStartTriangleVertex (start : Position) (firstControl : Option Position)
    (t : Position → Coord) : Coord :=
  match firstControl with
  | none => t start
  | some fc =>
    let coords := t start
    let sideLength : ℝ := 90
    let radiusFromCenter := sideLength / Real.sqrt 3
    let bearing := calculateBearing start fc
    let bearingRad := bearing * Real.pi / 180
    let mLat : ℝ := 111320
    let mLng := 111320 * Real.cos (start.lat * Real.pi / 180)
    (coords.1 + radiusFromCenter * Real.cos bearingRad / mLat,
     coords.2 + radiusFromCenter * Real.sin bearingRad / mLng)

/-- The top (aimed) vertex of the start triangle drawn by `createStartMarker`:
bearing toward the first control when one exists, otherwise bearing 0
(north). -/
def createStartMarkerTopVertex (position : Position)
    (firstControl : Option Position) (t : Position → Coord) : Coord :=
  let coords := t position
  let sideLength : ℝ := 90
  let bearing :=
    match firstControl with
    | some fc => calculateBearing position fc
    | none => 0
  let radiusFromCenter := sideLength / Real.sqrt 3
  let bearingRad := bearing * Real.pi / 180
  let mLat : ℝ := 111320
  let mLng := 111320 * Real.cos (position.lat * Real.pi / 180)
  (coords.1 + radiusFromCenter * Real.cos bearingRad / mLat,
   coords.2 + radiusFromCenter * Real.sin bearingRad / mLng)

/-- `getCircleEdgePoint(from, center, radiusMeters, transform)`: the point at
`radiusMeters` from `center` along the direction from `from` to `center`,
computed in local meters at `center`'s latitude; returns `center`'s
coordinates when the direction vector has zero length. -/
def getCircleEdgePoint (pfrom center : Position) (radiusMeters : ℝ)
    (t : Position → Coord) : Coord :=
  let fromCoords := t pfrom
  let centerCoords := t center
  let mLat : ℝ := 111320
  let mLng := 111320 * Real.cos (center.lat * Real.pi / 180)
  let dxMeters := (centerCoords.2 - fromCoords.2) * mLng
  let dyMeters := (centerCoords.1 - fromCoords.1) * mLat
  let distanceMeters := Real.sqrt (dxMeters * dxMeters + dyMeters * dyMeters)
  if distanceMeters = 0 then centerCoords
  else
    let dirXMeters := dxMeters / distanceMeters
    let dirYMeters := dyMeters / distanceMeters
    let offsetXMeters := dirXMeters * radiusMeters
    let offsetYMeters := dirYMeters * radiusMeters
    let offsetLng := offsetXMeters / mLng
    let offsetLat := offsetYMeters / mLat
    (centerCoords.1 - offsetLat, centerCoords.2 - offsetLng)

/-- `getFinishEdgePoint`: edge of the finish outer circle (45 m radius). -/
def getFinishEdgePoint (lastControl finish : Position) (t : Position → Coord) :
    Coord :=
  getCircleEdgePoint lastControl finish 45 t

/-- `createCoursePolylines(course, transform)`: the ordered gapped segments of
a course line; each polyline of the code is a two-point segment, modelled as a
pair of coordinates. -/
def createCoursePolylines (course : Course) (t : Position → Coord) :
    List (Coord × Coord) :=
  let controlRadius : ℝ := 37.5
  match course.controls with
  | [] => [(getStartTriangleVertex course.start none t, t course.finish)]
  | c0 :: rest =>
    let startVertex := getStartTriangleVertex course.start (some c0.position) t
    let firstControlEntry :=
      getCircleEdgePoint course.start c0.position controlRadius t
    let mids := ((c0 :: rest).zip rest).map fun pc =>
      (getCircleEdgePoint pc.2.position pc.1.position controlRadius t,
       getCircleEdgePoint pc.1.position pc.2.position controlRadius t)
    let lastControl := (c0 :: rest).getLastD c0
    let lastControlExit :=
      getCircleEdgePoint course.finish lastControl.position controlRadius t
    let finishEntry := getFinishEdgePoint lastControl.position course.finish t
    (startVertex, firstControlEntry) :: (mids ++ [(lastControlExit, finishEntry)])

/-- `calculateDistance(pos1, pos2)` from courseRenderer.ts: planar distance in
meters using the meters-per-degree factor at the average latitude. -/
def calculateDistance (pos1 pos2 : Coord) : ℝ :=
  let mLat : ℝ := 111320
  let mLng := 111320 * Real.cos ((pos1.1 + pos2.1) / 2 * Real.pi / 180)
  let dLat := (pos2.1 - pos1.1) * mLat
  let dLng := (pos2.2 - pos1.2) * mLng
  Real.sqrt (dLat * dLat + dLng * dLng)

/-- `averageAngles(angle1, angle2)`: circular mean handling wraparound. -/
def averageAngles (angle1 angle2 : ℝ) : ℝ :=
  let diff := jsMod (angle2 - angle1 + 540) 360 - 180
  jsMod (angle1 + diff / 2 + 360) 360

/-- `calculateLabelOffset(controlNumber)`: required offset of a label from the
circle center so the text box clears the circle along its diagonal. -/
def calculateLabelOffset (controlNumber : ℕ) : ℝ :=
  let circleRadius : ℝ := 37.5
  let textHeightMeters : ℝ := 60
  let numDigits : ℕ := (toString controlNumber).length
  let textWidthMeters := textHeightMeters * 0.6 * numDigits
  let halfWidth := textWidthMeters / 2
  let halfHeight := textHeightMeters / 2
  let diagonalHalf := Real.sqrt (halfWidth * halfWidth + halfHeight * halfHeight)
  let margin : ℝ := 8
  circleRadius + margin + diagonalHalf

/-- The preferred label angle computed by `findNonOverlappingPosition` from the
neighboring controls. -/
def preferredLabelAngle (currentPos : Position)
    (prevPos nextPos : Option Position) : ℝ :=
  match prevPos, nextPos with
  | some pp, some np =>
    let bearingFrom := calculateBearing pp currentPos
    let bearingTo := calculateBearing currentPos np
    let turnAngle := jsMod (bearingTo - bearingFrom + 360) 360
    let avgBearing := averageAngles bearingFrom bearingTo
    if turnAngle < 180 then avgBearing - 90 else avgBearing + 90
  | some pp, none => calculateBearing pp currentPos + 90
  | none, some np => calculateBearing currentPos np + 90
  | none, none => 45

/-- The label position at a given angle and offset from the control center,
converting the polar offset to degrees at the control's latitude. -/
def labelPositionAt (coords : Coord) (lat offsetDistance angle : ℝ) : Coord :=
  let labelRad := angle * Real.pi / 180
  let mLat : ℝ := 111320
  let mLng := 111320 * Real.cos (lat * Real.pi / 180)
  (coords.1 + offsetDistance * Real.cos labelRad / mLat,
   coords.2 + offsetDistance * Real.sin labelRad / mLng)

/-- The `hasOverlap` condition of `findNonOverlappingPosition`: too close to an
already-placed label (within 50 m), to the finish marker (within 45 + 10 m),
or to the start marker (within 52 + 10 m). -/
def labelHasOverlap (labelPos : Coord) (existing : List Coord)
    (finishPosition startPosition : Option Position)
    (t : Position → Coord) : Prop :=
  (∃ e ∈ existing, calculateDistance labelPos e < 50) ∨
  (∃ f, finishPosition = some f ∧ calculateDistance labelPos (t f) < 45 + 10) ∨
  (∃ sp, startPosition = some sp ∧ calculateDistance labelPos (t sp) < 52 + 10)

/-- The candidate-angle list tried by `findNonOverlappingPosition`, in source
order. -/
def anglesToTry (preferredAngle : ℝ) : List ℝ :=
  [preferredAngle, preferredAngle + 180, preferredAngle + 90,
   preferredAngle - 90, preferredAngle + 45, preferredAngle - 45,
   preferredAngle + 135, preferredAngle - 135]

/-- The `for (const angle of anglesToTry)` loop: return the first candidate
position without overlap; past the end of the list, fall back to the
preferred-angle position. -/
def tryLabelAngles (coords : Coord) (lat offsetDistance : ℝ)
    (existing : List Coord) (finishPosition startPosition : Option Position)
    (t : Position → Coord) (fallback : ℝ) : List ℝ → Coord
  | [] => labelPositionAt coords lat offsetDistance fallback
  | angle :: restAngles =>
    if labelHasOverlap (labelPositionAt coords lat offsetDistance angle)
        existing finishPosition startPosition t then
      tryLabelAngles coords lat offsetDistance existing finishPosition
        startPosition t fallback restAngles
    else labelPositionAt coords lat offsetDistance angle

/-- `findNonOverlappingPosition` from courseRenderer.ts. -/
def findNonOverlappingPosition (currentPos : Position)
    (prevPos nextPos : Option Position) (t : Position → Coord)
    (existingLabelPositions : List Coord) (controlNumber : ℕ)
    (finishPosition startPosition : Option Position) : Coord :=
  let coords := t currentPos
  let offsetDistance := calculateLabelOffset controlNumber
  let preferredAngle := preferredLabelAngle currentPos prevPos nextPos
  tryLabelAngles coords currentPos.lat offsetDistance existingLabelPositions
    finishPosition startPosition t preferredAngle (anglesToTry preferredAngle)

/-! Specification-side description of the label search (§4.6 of the spec),
used to state the refinement claim about `findNonOverlappingPosition`. -/

/-- Candidate angle list as the specification words it: the preferred angle,
its opposite, the two perpendiculars, then the four diagonal variants. -/
def specCandidateAngles (preferred : ℝ) : List ℝ :=
  [preferred, preferred + 180, preferred + 90, preferred - 90,
   preferred + 45, preferred - 45, preferred + 135, preferred - 135]

/-- Acceptability of a candidate per the specification: planar distance at
least the minimum separation from every already-placed label, at least
finish outer radius + margin from the finish, and at least start radius +
margin from the start. -/
def specLabelAcceptable (labelPos : Coord) (existing : List Coord)
    (finishPosition startPosition : Option Position)
    (t : Position → Coord) : Prop :=
  (∀ e ∈ existing, 50 ≤ calculateDistance labelPos e) ∧
  (∀ f, finishPosition = some f → 45 + 10 ≤ calculateDistance labelPos (t f)) ∧
  (∀ sp, startPosition = some sp → 52 + 10 ≤ calculateDistance labelPos (t sp))

/-- First-accepted search over a candidate list per the specification, with
fallback to the preferred-angle position when every candidate is rejected. -/
def specLabelSearch (coords : Coord) (lat offsetDistance : ℝ)
    (existing : List Coord) (finishPosition startPosition : Option Position)
    (t : Position → Coord) (preferred : ℝ) : List ℝ → Coord
  | [] => labelPositionAt coords lat offsetDistance preferred
  | angle :: restAngles =>
    if specLabelAcceptable (labelPositionAt coords lat offsetDistance angle)
        existing finishPosition startPosition t then
      labelPositionAt coords lat offsetDistance angle
    else
      specLabelSearch coords lat offsetDistance existing finishPosition
        startPosition t preferred restAngles

/-- The specification's label placement: try `specCandidateAngles` in order,
accept the first acceptable candidate, else the preferred position. -/
def specFindLabelPosition (currentPos : Position)
    (prevPos nextPos : Option Position) (t : Position → Coord)
    (existingLabelPositions : List Coord) (controlNumber : ℕ)
    (finishPosition startPosition : Option Position) : Coord :=
  let coords := t currentPos
  let offsetDistance := calculateLabelOffset controlNumber
  let preferred := preferredLabelAngle currentPos prevPos nextPos
  specLabelSearch coords currentPos.lat offsetDistance existingLabelPositions
    finishPosition startPosition t preferred (specCandidateAngles preferred)

/-! ### Measuring sticks for the geometric claims -/

/-- Planar distance in meters between two coordinate pairs, converting the
degree differences with the meters-per-degree factors at reference latitude
`lat` — the measure the specification uses for the circle-edge properties. -/
def planarDistanceAt (lat : ℝ) (a b : Coord) : ℝ :=
  Real.sqrt (((a.1 - b.1) * metersPerDegreeLat) ^ 2 +
    ((a.2 - b.2) * metersPerDegreeLng lat) ^ 2)

/-- `q` lies on the straight segment between `a` and `b`. -/
def onSegment (q a b : Coord) : Prop :=
  ∃ u : ℝ, 0 ≤ u ∧ u ≤ 1 ∧
    q = (a.1 + u * (b.1 - a.1), a.2 + u * (b.2 - a.2))

/-! ### Entity deduplication (courseRenderer.ts) -/

/-- One entry of a `UniqueControl.courses` list. -/
structure CourseRef where
  courseId : String
  courseName : String
  courseColor : String
  controlNumber : ℕ

/-- A unique control shared across courses. -/
structure UniqueControl where
  code : String
  position : Position
  controlIds : List String
  courses : List CourseRef

/-- A unique start (or finish) position with the names of the courses using
it; the code reuses the `UniqueStart` interface for finishes. -/
structure UniqueStart where
  position : Position
  courseNames : List String

/-- The deduplication key of a `UniqueControl` (the code's
`code_lat_lng` map key; latitude/longitude render without underscores, so the
string key identifies exactly this pair). -/
def ucKey (u : UniqueControl) : String × Position := (u.code, u.position)

/-- The deduplication key contributed by a control. -/
def ctrlKey (c : Control) : String × Position := (c.code, c.position)

/-- The key of a (course, control) occurrence. -/
def pairKey (p : Course × Control) : String × Position := ctrlKey p.2

/-- The `courses` entry a (course, control) occurrence pushes. -/
def mkRef (p : Course × Control) : CourseRef :=
  ⟨p.1.id, p.1.name, p.1.color, p.2.number⟩

/-- Append an id unless already present (`if (!controlIds.includes(id))`). -/
def addId (l : List String) (i : String) : List String :=
  if i ∈ l then l else l ++ [i]

/-- Update the matching map entry with one control occurrence. -/
def addToEntry (course : Course) (c : Control) (u : UniqueControl) :
    UniqueControl :=
  { u with
    controlIds := addId u.controlIds c.id,
    courses := u.courses ++ [⟨course.id, course.name, course.color, c.number⟩] }

/-- Process one control in `extractUniqueControls`: update the existing entry
with its key, or append a fresh entry (JS `Map` preserves insertion order and
updates in place). -/
def insertCtrl (acc : List UniqueControl) (course : Course) (c : Control) :
    List UniqueControl :=
  if ∃ u ∈ acc, ucKey u = ctrlKey c then
    acc.map fun u => if ucKey u = ctrlKey c then addToEntry course c u else u
  else acc ++ [addToEntry course c ⟨c.code, c.position, [], []⟩]

/-- `extractUniqueControls(courses)`. -/
def extractUniqueControls (courses : List Course) : List UniqueControl :=
  courses.foldl
    (fun acc course => course.controls.foldl
      (fun a c => insertCtrl a course c) acc) []

/-- All (course, control) occurrences of a course list, in processing order. -/
def coursePairs (courses : List Course) : List (Course × Control) :=
  courses.flatMap fun course => course.controls.map fun c => (course, c)

/-- The fold underlying `extractUniqueControls`, over flattened occurrences. -/
def buildUC (ps : List (Course × Control)) (acc : List UniqueControl) :
    List UniqueControl :=
  ps.foldl (fun a p => insertCtrl a p.1 p.2) acc

/-- The occurrences with a given key, in order. -/
def keyPairs (K : String × Position) : List (Course × Control) →
    List (Course × Control)
  | [] => []
  | p :: ps => if pairKey p = K then p :: keyPairs K ps else keyPairs K ps

/-- The controls of one list with a given key, in order. -/
def keyControls (K : String × Position) : List Control → List Control
  | [] => []
  | c :: cs => if ctrlKey c = K then c :: keyControls K cs else keyControls K cs

/-- All control ids of a course list, in processing order. -/
def allControlIds (courses : List Course) : List String :=
  (coursePairs courses).map fun p => p.2.id

/-- Push a course name unless already present
(`if (!uniqueStart.courseNames.includes(course.name))`). -/
def addCourseName (u : UniqueStart) (name : String) : UniqueStart :=
  if name ∈ u.courseNames then u
  else { u with courseNames := u.courseNames ++ [name] }

/-- Process one course in `extractUniqueStarts`/`extractUniqueFinishes`:
update the entry keyed by exact position, or append a fresh one. -/
def insertStart (acc : List UniqueStart) (pos : Position) (name : String) :
    List UniqueStart :=
  if ∃ u ∈ acc, u.position = pos then
    acc.map fun u => if u.position = pos then addCourseName u name else u
  else acc ++ [addCourseName ⟨pos, []⟩ name]

/-- `extractUniqueStarts(courses)`. -/
def extractUniqueStarts (courses : List Course) : List UniqueStart :=
  courses.foldl (fun acc course => insertStart acc course.start course.name) []

/-- `extractUniqueFinishes(courses)`. -/
def extractUniqueFinishes (courses : List Course) : List UniqueStart :=
  courses.foldl (fun acc course => insertStart acc course.finish course.name) []

/-- Fallback segment value for list indexing in endpoint statements. -/
def defaultSegment : Coord × Coord := ((0, 0), (0, 0))

/-- Fallback control value for list indexing in endpoint statements. -/
def defaultControl : Control := ⟨"", "", 0, ⟨0, 0⟩⟩

instance : Inhabited Control := ⟨defaultControl⟩

/-! ### Concrete inputs used by counterexamples and witnesses -/

/-- A zero-control course. -/
def c4course : Course :=
  ⟨"course0", "Zero", "#9c27b0", true, ⟨0, 0⟩, ⟨1, 1⟩, []⟩

/-- A course whose two controls share one position (overlapping circles). -/
def c6course : Course :=
  ⟨"course6", "Coincident", "#9c27b0", true, ⟨1, 1⟩, ⟨2, 2⟩,
   [⟨"x1", "31", 1, ⟨0, 0⟩⟩, ⟨"x2", "32", 2, ⟨0, 0⟩⟩]⟩

/-- A two-control course with distinct control positions. -/
def c6wcourse : Course :=
  ⟨"course6w", "Distinct", "#9c27b0", true, ⟨1, 0⟩, ⟨2, 0⟩,
   [⟨"a1", "31", 1, ⟨0, 0⟩⟩, ⟨"a2", "32", 2, ⟨0, 1⟩⟩]⟩

/-- A one-control course. -/
def c3course : Course :=
  ⟨"course3", "Single", "#9c27b0", true, ⟨51.5, -0.1⟩, ⟨51.51, -0.11⟩,
   [⟨"b1", "101", 1, ⟨51.505, -0.105⟩⟩]⟩

/-- The shared control position of the C7 witness courses. -/
def c7pos : Position := ⟨1, 2⟩

/-- First witness course sharing control code "31" at `c7pos`. -/
def c7courseA : Course :=
  ⟨"A", "Course A", "red", true, ⟨0, 0⟩, ⟨0, 1⟩, [⟨"i1", "31", 1, c7pos⟩]⟩

/-- Second witness course sharing control code "31" at `c7pos`. -/
def c7courseB : Course :=
  ⟨"B", "Course B", "blue", true, ⟨0, 0⟩, ⟨0, 1⟩, [⟨"i2", "31", 2, c7pos⟩]⟩

end

end ForestTeam

namespace ForestTeam

/-! ### Lemmas for the visit tracker -/

theorem visitTrackingStep_mono (s : VisitTrackingState) (pos : Position)
    (c : Control) (x : String) (h : x ∈ s.visitedControls) :
    x ∈ (visitTrackingStep s pos c).visitedControls := by
  unfold visitTrackingStep
  split_ifs <;> simp [markControlAsVisited, h]

theorem visitTrackingFold_mono (pos : Position) (l : List Control)
    (s : VisitTrackingState) (x : String) (h : x ∈ s.visitedControls) :
    x ∈ (l.foldl (fun st c => visitTrackingStep st pos c) s).visitedControls := by
  induction l generalizing s with
  | nil => exact h
  | cons c l ih => exact ih _ (visitTrackingStep_mono s pos c x h)

theorem applyVisitTrackerOp_mono (s : VisitTrackingState) (op : VisitTrackerOp)
    (x : String) (hop : op ≠ VisitTrackerOp.reset) (h : x ∈ s.visitedControls) :
    x ∈ (applyVisitTrackerOp s op).visitedControls := by
  cases op with
  | onPosition g cs vis =>
    cases g with
    | none => exact h
    | some pos =>
      simp only [applyVisitTrackerOp, useControlVisitTracking]
      split_ifs
      · exact h
      · exact visitTrackingFold_mono pos _ s x h
  | setThreshold d => exact h
  | setTracking b => exact h
  | reset => exact absurd rfl hop

/-- Claim C1: visit-tracking monotonicity.  Once `isControlVisited id` holds,
it still holds after any sequence of operations not containing `reset`
(onPosition updates with arbitrary positions, threshold changes, tracking
toggles); and `reset` clears the visited set entirely. -/
theorem visitTracker_monotonic (s : VisitTrackingState) (controlId : String)
    (ops : List VisitTrackerOp) (hops : VisitTrackerOp.reset ∉ ops)
    (h : isControlVisited s controlId) :
    isControlVisited (ops.foldl applyVisitTrackerOp s) controlId ∧
      ∀ s' : VisitTrackingState,
        (applyVisitTrackerOp s' VisitTrackerOp.reset).visitedControls = ∅ := by
  refine ⟨?_, fun s' => rfl⟩
  induction ops generalizing s with
  | nil => exact h
  | cons op ops ih =>
    have hop : op ≠ VisitTrackerOp.reset := fun he => hops (he ▸ List.mem_cons_self op ops)
    have hops' : VisitTrackerOp.reset ∉ ops := fun hm => hops (List.mem_cons_of_mem _ hm)
    exact ih _ hops' (applyVisitTrackerOp_mono s op controlId hop h)

theorem visitTracker_monotonic_witness :
    isControlVisited
      (([VisitTrackerOp.setThreshold 5,
         VisitTrackerOp.onPosition (some ⟨51.5, 0⟩) [] ∅,
         VisitTrackerOp.setTracking false].foldl applyVisitTrackerOp
        ⟨{"c1"}, 10, true⟩) : VisitTrackingState) "c1" ∧
      ∀ s' : VisitTrackingState,
        (applyVisitTrackerOp s' VisitTrackerOp.reset).visitedControls = ∅ :=
  visitTracker_monotonic ⟨{"c1"}, 10, true⟩ "c1" _
    (by simp) (by simp [isControlVisited])

theorem visitTrackingFold_mem (pos : Position) (theta : ℝ) (l : List Control)
    (s : VisitTrackingState) (hth : s.visitDistanceThreshold = theta)
    (x : String) :
    x ∈ (l.foldl (fun st c => visitTrackingStep st pos c) s).visitedControls ↔
      x ∈ s.visitedControls ∨
        ∃ c ∈ l, haversineDistance pos c.position ≤ theta ∧ c.id = x := by
  induction l generalizing s with
  | nil => simp
  | cons c l ih =>
    have hth' : (visitTrackingStep s pos c).visitDistanceThreshold = theta := by
      unfold visitTrackingStep
      split_ifs <;> simpa [markControlAsVisited]
    rw [List.foldl_cons, ih _ hth']
    unfold visitTrackingStep
    split_ifs with hv hw
    · -- already visited: the c-clause is absorbed
      simp only [List.mem_cons]
      constructor
      · rintro (hx | ⟨d, hd, hdist, hid⟩)
        · exact Or.inl hx
        · exact Or.inr ⟨d, Or.inr hd, hdist, hid⟩
      · rintro (hx | ⟨d, hd | hd, hdist, hid⟩)
        · exact Or.inl hx
        · exact Or.inl (by rw [← hid, hd]; exact hv)
        · exact Or.inr ⟨d, hd, hdist, hid⟩
    · -- newly within distance: inserted
      simp only [markControlAsVisited, Finset.mem_insert, List.mem_cons]
      rw [hth] at hw
      constructor
      · rintro ((hx | hx) | ⟨d, hd, hdist, hid⟩)
        · exact Or.inr ⟨c, Or.inl rfl, hw, hx.symm⟩
        · exact Or.inl hx
        · exact Or.inr ⟨d, Or.inr hd, hdist, hid⟩
      · rintro (hx | ⟨d, hd | hd, hdist, hid⟩)
        · exact Or.inl (Or.inr hx)
        · exact Or.inl (Or.inl (by rw [← hid, hd]))
        · exact Or.inr ⟨d, hd, hdist, hid⟩
    · -- not within distance: the c-clause is vacuous
      rw [hth] at hw
      simp only [List.mem_cons]
      constructor
      · rintro (hx | ⟨d, hd, hdist, hid⟩)
        · exact Or.inl hx
        · exact Or.inr ⟨d, Or.inr hd, hdist, hid⟩
      · rintro (hx | ⟨d, hd | hd, hdist, hid⟩)
        · exact Or.inl hx
        · exact absurd (hd ▸ hdist) hw
        · exact Or.inr ⟨d, hd, hdist, hid⟩

/-- Claim C2: `onPosition` postcondition.  With tracking enabled and a
position present, the new visited set consists of the old one plus exactly
the ids of visible controls whose Haversine distance to the position is at
most the threshold; without a position, or with tracking disabled, the state
is unchanged. -/
theorem useControlVisitTracking_spec (s : VisitTrackingState) (pos : Position)
    (courses : List Course) (vis : Finset String)
    (henabled : s.isTrackingEnabled = true) :
    (∀ x, x ∈ (useControlVisitTracking (some pos) courses vis s).visitedControls ↔
        x ∈ s.visitedControls ∨
          ∃ c ∈ visibleControlsOf courses vis,
            haversineDistance pos c.position ≤ s.visitDistanceThreshold ∧
              c.id = x) ∧
    (∀ (s' : VisitTrackingState) (cs : List Course) (v : Finset String),
        useControlVisitTracking none cs v s' = s') ∧
    (∀ (s' : VisitTrackingState) (g : Option Position) (cs : List Course)
        (v : Finset String), s'.isTrackingEnabled = false →
        useControlVisitTracking g cs v s' = s') := by
  refine ⟨fun x => ?_, fun s' cs v => rfl, fun s' g cs v hdis => ?_⟩
  · have hred : useControlVisitTracking (some pos) courses vis s =
        (visibleControlsOf courses vis).foldl
          (fun st c => visitTrackingStep st pos c) s := by
      show (if s.isTrackingEnabled = false then s
        else (visibleControlsOf courses vis).foldl
          (fun st c => visitTrackingStep st pos c) s) = _
      rw [if_neg (by simp [henabled])]
    rw [hred]
    exact visitTrackingFold_mem pos s.visitDistanceThreshold _ s rfl x
  · cases g with
    | none => rfl
    | some p =>
      show (if s'.isTrackingEnabled = false then s'
        else (visibleControlsOf cs v).foldl
          (fun st c => visitTrackingStep st p c) s') = s'
      rw [if_pos hdis]

theorem useControlVisitTracking_spec_witness :
    (∀ x, x ∈ (useControlVisitTracking (some ⟨51.5, -0.1⟩) []
        ∅ ⟨∅, 10, true⟩).visitedControls ↔
        x ∈ (⟨∅, 10, true⟩ : VisitTrackingState).visitedControls ∨
          ∃ c ∈ visibleControlsOf [] ∅,
            haversineDistance ⟨51.5, -0.1⟩ c.position ≤
              (⟨∅, 10, true⟩ : VisitTrackingState).visitDistanceThreshold ∧
              c.id = x) ∧
    (∀ (s' : VisitTrackingState) (cs : List Course) (v : Finset String),
        useControlVisitTracking none cs v s' = s') ∧
    (∀ (s' : VisitTrackingState) (g : Option Position) (cs : List Course)
        (v : Finset String), s'.isTrackingEnabled = false →
        useControlVisitTracking g cs v s' = s') :=
  useControlVisitTracking_spec ⟨∅, 10, true⟩ ⟨51.5, -0.1⟩ [] ∅ rfl

/-! ### Line-width scaling (C8) -/

theorem calculateLineWidth_eq (zoom lat : ℝ) :
    calculateLineWidth zoom lat =
      max 1 (min 10 ((5.25 : ℝ) /
        (156543.04 * Real.cos (lat * Real.pi / 180) / (2 : ℝ) ^ zoom))) := rfl

theorem clampLineWidth_bounds (w : ℝ) :
    1 ≤ max 1 (min 10 w) ∧ max 1 (min 10 w) ≤ 10 :=
  ⟨le_max_left 1 _, max_le (by norm_num) (min_le_left 10 w)⟩

theorem calculateLineWidth_mono (lat : ℝ) {z1 z2 : ℝ} (h : z1 ≤ z2) :
    calculateLineWidth z1 lat ≤ calculateLineWidth z2 lat := by
  rw [calculateLineWidth_eq, calculateLineWidth_eq]
  set cosv := Real.cos (lat * Real.pi / 180) with hcos
  have p1 : (0 : ℝ) < (2 : ℝ) ^ z1 := Real.rpow_pos_of_pos two_pos z1
  have p2 : (0 : ℝ) < (2 : ℝ) ^ z2 := Real.rpow_pos_of_pos two_pos z2
  rcases lt_trichotomy cosv 0 with hc | hc | hc
  · -- negative resolution: both pixel widths are negative, both clamps are 1
    have w1 : (5.25 : ℝ) / (156543.04 * cosv / (2 : ℝ) ^ z1) < 0 :=
      div_neg_of_pos_of_neg (by norm_num)
        (div_neg_of_neg_of_pos (by nlinarith) p1)
    have w2 : (5.25 : ℝ) / (156543.04 * cosv / (2 : ℝ) ^ z2) < 0 :=
      div_neg_of_pos_of_neg (by norm_num)
        (div_neg_of_neg_of_pos (by nlinarith) p2)
    rw [max_eq_left ((min_le_right 10 _).trans (by linarith)),
      max_eq_left ((min_le_right 10 _).trans (by linarith))]
  · -- zero resolution: both pixel widths are 0/0 = 0
    rw [hc]
    norm_num
  · -- positive resolution: pixel width increases with zoom
    have key : (5.25 : ℝ) / (156543.04 * cosv / (2 : ℝ) ^ z1) ≤
        (5.25 : ℝ) / (156543.04 * cosv / (2 : ℝ) ^ z2) := by
      rw [div_div_eq_mul_div, div_div_eq_mul_div]
      have hz : (2 : ℝ) ^ z1 ≤ (2 : ℝ) ^ z2 :=
        (Real.rpow_le_rpow_left_iff one_lt_two).mpr h
      have hK : (0 : ℝ) < 156543.04 * cosv := by nlinarith
      exact (div_le_div_iff_of_pos_right hK).mpr
        (mul_le_mul_of_nonneg_left hz (by norm_num))
    exact max_le_max (le_refl 1) (min_le_min (le_refl 10) key)

/-- Claim C8: for a fixed latitude, increasing the zoom below the clamp
ceiling never decreases the computed line width, and the line width always
lies in the interval `[1, 10]`. -/
theorem calculateLineWidth_props (lat z z1 z2 : ℝ) (h : z1 < z2) :
    calculateLineWidth z1 lat ≤ calculateLineWidth z2 lat ∧
      1 ≤ calculateLineWidth z lat ∧ calculateLineWidth z lat ≤ 10 := by
  refine ⟨calculateLineWidth_mono lat h.le, ?_, ?_⟩
  · rw [calculateLineWidth_eq]; exact (clampLineWidth_bounds _).1
  · rw [calculateLineWidth_eq]; exact (clampLineWidth_bounds _).2

theorem calculateLineWidth_props_witness :
    calculateLineWidth 14 51 ≤ calculateLineWidth 15 51 ∧
      1 ≤ calculateLineWidth 15 51 ∧ calculateLineWidth 15 51 ≤ 10 :=
  calculateLineWidth_props 51 15 14 15 (by norm_num)

/-! ### Segment count (C3) -/

theorem createCoursePolylines_length (course : Course) (t : Position → Coord) :
    (createCoursePolylines course t).length = course.controls.length + 1 := by
  cases hc : course.controls with
  | nil => simp [createCoursePolylines, hc]
  | cons c0 rest =>
    simp [createCoursePolylines, hc, List.length_zip]

/-- Claim C3: course line segmentation returns `k + 1` segments for a course
with `k ≥ 1` controls, and exactly one segment for a zero-control course. -/
theorem createCoursePolylines_segment_count (course : Course)
    (t : Position → Coord) :
    (1 ≤ course.controls.length →
      (createCoursePolylines course t).length = course.controls.length + 1) ∧
    (course.controls.length = 0 →
      (createCoursePolylines course t).length = 1) := by
  have h := createCoursePolylines_length course t
  exact ⟨fun _ => h, fun h0 => by rw [h, h0]⟩

theorem createCoursePolylines_segment_count_witness :
    (1 ≤ c3course.controls.length →
      (createCoursePolylines c3course defaultTransform).length =
        c3course.controls.length + 1) ∧
    (c3course.controls.length = 0 →
      (createCoursePolylines c3course defaultTransform).length = 1) :=
  createCoursePolylines_segment_count c3course defaultTransform

/-! ### Deduplicated course names (C10) -/

theorem addCourseName_nodup {u : UniqueStart} (h : u.courseNames.Nodup)
    (n : String) : (addCourseName u n).courseNames.Nodup := by
  unfold addCourseName
  split_ifs with hm
  · exact h
  · simpa [List.nodup_append] using ⟨h, hm⟩

theorem insertStart_nodup {acc : List UniqueStart}
    (h : ∀ u ∈ acc, u.courseNames.Nodup) (pos : Position) (n : String) :
    ∀ u ∈ insertStart acc pos n, u.courseNames.Nodup := by
  unfold insertStart
  split_ifs with he
  · intro u hu
    rcases List.mem_map.mp hu with ⟨v, hv, rfl⟩
    split_ifs with hk
    · exact addCourseName_nodup (h v hv) n
    · exact h v hv
  · intro u hu
    rcases List.mem_append.mp hu with hu | hu
    · exact h u hu
    · have := List.mem_singleton.mp hu
      subst this
      exact addCourseName_nodup (by simp) n

theorem insertStart_fold_nodup (courses : List Course) (f : Course → Position)
    (acc : List UniqueStart) (h : ∀ u ∈ acc, u.courseNames.Nodup) :
    ∀ u ∈ courses.foldl
        (fun a course => insertStart a (f course) course.name) acc,
      u.courseNames.Nodup := by
  induction courses generalizing acc with
  | nil => exact h
  | cons co cos ih => exact ih _ (insertStart_nodup h (f co) co.name)

/-- Claim C10: `extractUniqueStarts` and `extractUniqueFinishes` deduplicate
course names — no returned `courseNames` list contains a duplicate entry. -/
theorem extractUnique_courseNames_nodup (courses : List Course) :
    ((extractUniqueStarts courses).Forall fun u => u.courseNames.Nodup) ∧
    ((extractUniqueFinishes courses).Forall fun u => u.courseNames.Nodup) := by
  refine ⟨List.forall_iff_forall_mem.mpr ?_, List.forall_iff_forall_mem.mpr ?_⟩
  · exact insertStart_fold_nodup courses (fun c => c.start) [] (by simp)
  · exact insertStart_fold_nodup courses (fun c => c.finish) [] (by simp)

/-! ### Label placement search (C9) -/

theorem not_labelHasOverlap_iff (labelPos : Coord) (existing : List Coord)
    (fp sp : Option Position) (t : Position → Coord) :
    ¬ labelHasOverlap labelPos existing fp sp t ↔
      specLabelAcceptable labelPos existing fp sp t := by
  unfold labelHasOverlap specLabelAcceptable
  push_neg
  rfl

theorem tryLabelAngles_eq_spec (coords : Coord) (lat off : ℝ)
    (existing : List Coord) (fp sp : Option Position) (t : Position → Coord)
    (fallback : ℝ) (angles : List ℝ) :
    tryLabelAngles coords lat off existing fp sp t fallback angles =
      specLabelSearch coords lat off existing fp sp t fallback angles := by
  induction angles with
  | nil => rfl
  | cons a as ih =>
    unfold tryLabelAngles specLabelSearch
    rcases Classical.em (labelHasOverlap (labelPositionAt coords lat off a)
        existing fp sp t) with hov | hov
    · rw [if_pos hov, if_neg (fun ha =>
        (not_labelHasOverlap_iff _ _ _ _ _).mpr ha hov), ih]
    · rw [if_neg hov, if_pos ((not_labelHasOverlap_iff _ _ _ _ _).mp hov)]

/-- Claim C9: the label placement search tries the eight candidate angles in
the exact order preferred, +180, +90, −90, +45, −45, +135, −135, accepts the
first candidate clear of all already-placed labels and of the finish and
start symbols, and falls back to the preferred-angle position when every
candidate is rejected — i.e. the code's search coincides with the
specification's first-accept search. -/
theorem findNonOverlappingPosition_eq_spec (currentPos : Position)
    (prevPos nextPos : Option Position) (t : Position → Coord)
    (existingLabelPositions : List Coord) (controlNumber : ℕ)
    (finishPosition startPosition : Option Position) :
    findNonOverlappingPosition currentPos prevPos nextPos t
        existingLabelPositions controlNumber finishPosition startPosition =
      specFindLabelPosition currentPos prevPos nextPos t
        existingLabelPositions controlNumber finishPosition startPosition :=
  tryLabelAngles_eq_spec _ _ _ _ _ _ _ _ _

/-! ### Zero-control segmentation (C4) -/

/-- Claim C4 counterexample: for a zero-control course the single returned
segment starts at the transformed start position itself — because
`getStartTriangleVertex` returns the start unchanged when the first control is
`null` — and not at the start triangle's north-pointing aimed vertex (the top
vertex `createStartMarker` draws with a null first control), which lies
`90 / sqrt 3` meters north of the start center. -/
theorem zeroControlSegment_counterexample :
    (createCoursePolylines c4course defaultTransform).headI =
        (defaultTransform c4course.start, defaultTransform c4course.finish) ∧
    ((createCoursePolylines c4course defaultTransform).headI).1 ≠
      createStartMarkerTopVertex c4course.start none defaultTransform := by
  have hlist : createCoursePolylines c4course defaultTransform =
      [(defaultTransform c4course.start, defaultTransform c4course.finish)] := by
    simp [createCoursePolylines, c4course, getStartTriangleVertex]
  have hvertex : createStartMarkerTopVertex c4course.start none defaultTransform =
      (90 / Real.sqrt 3 / 111320, 0) := by
    simp [createStartMarkerTopVertex, c4course, defaultTransform]
  refine ⟨by rw [hlist]; rfl, ?_⟩
  rw [hlist, hvertex]
  have hpos : (0 : ℝ) < 90 / Real.sqrt 3 / 111320 := by positivity
  intro h
  have h1 := congrArg Prod.fst h
  simp [c4course, defaultTransform] at h1
  linarith

/-- Claim C4 (amended): for a zero-control course, segmentation returns the
single segment from the transformed start position itself (the code's
`getStartTriangleVertex` returns the start unchanged when there is no first
control) to the finish position. -/
theorem createCoursePolylines_zero_controls (course : Course)
    (t : Position → Coord) (h : course.controls = []) :
    createCoursePolylines course t = [(t course.start, t course.finish)] := by
  simp [createCoursePolylines, h, getStartTriangleVertex]

theorem createCoursePolylines_zero_controls_witness :
    createCoursePolylines c4course defaultTransform =
      [(defaultTransform c4course.start, defaultTransform c4course.finish)] :=
  createCoursePolylines_zero_controls c4course defaultTransform rfl

/-! ### Circle edge points (C5) -/

theorem edgeVec_pos (p c : Position)
    (hm : (111320 : ℝ) * Real.cos (c.lat * Real.pi / 180) ≠ 0) (hpc : p ≠ c) :
    0 < ((c.lng - p.lng) * (111320 * Real.cos (c.lat * Real.pi / 180))) *
        ((c.lng - p.lng) * (111320 * Real.cos (c.lat * Real.pi / 180))) +
        ((c.lat - p.lat) * 111320) * ((c.lat - p.lat) * 111320) := by
  have hne : p.lat ≠ c.lat ∨ p.lng ≠ c.lng := by
    by_contra hcon
    push_neg at hcon
    exact hpc (Position.ext hcon.1 hcon.2)
  rcases hne with h | h
  · have hdy : (c.lat - p.lat) * (111320 : ℝ) ≠ 0 :=
      mul_ne_zero (sub_ne_zero.mpr (Ne.symm h)) (by norm_num)
    nlinarith [mul_self_nonneg ((c.lng - p.lng) *
      (111320 * Real.cos (c.lat * Real.pi / 180))), mul_self_pos.mpr hdy]
  · have hdx : (c.lng - p.lng) * (111320 * Real.cos (c.lat * Real.pi / 180)) ≠ 0 :=
      mul_ne_zero (sub_ne_zero.mpr (Ne.symm h)) hm
    nlinarith [mul_self_nonneg ((c.lat - p.lat) * (111320 : ℝ)),
      mul_self_pos.mpr hdx]

theorem planarDistanceAt_fromCenter (p c : Position) :
    planarDistanceAt c.lat (defaultTransform p) (defaultTransform c) =
      Real.sqrt (((c.lng - p.lng) * (111320 * Real.cos (c.lat * Real.pi / 180))) *
        ((c.lng - p.lng) * (111320 * Real.cos (c.lat * Real.pi / 180))) +
        ((c.lat - p.lat) * 111320) * ((c.lat - p.lat) * 111320)) := by
  unfold planarDistanceAt defaultTransform metersPerDegreeLat metersPerDegreeLng
  congr 1
  ring

theorem edgePoint_planar_dist (p c : Position) (r : ℝ) (hr : 0 ≤ r)
    (hm : metersPerDegreeLng c.lat ≠ 0) (hpc : p ≠ c) :
    planarDistanceAt c.lat (getCircleEdgePoint p c r defaultTransform)
      (defaultTransform c) = r := by
  have hm' : (111320 : ℝ) * Real.cos (c.lat * Real.pi / 180) ≠ 0 := by
    simpa [metersPerDegreeLng] using hm
  have hpos := edgeVec_pos p c hm' hpc
  simp only [getCircleEdgePoint, planarDistanceAt, defaultTransform,
    metersPerDegreeLng, metersPerDegreeLat]
  set M : ℝ := 111320 * Real.cos (c.lat * Real.pi / 180) with hM
  set dx : ℝ := (c.lng - p.lng) * M with hdx
  set dy : ℝ := (c.lat - p.lat) * 111320 with hdy
  set d : ℝ := Real.sqrt (dx * dx + dy * dy) with hd
  have hd0 : d ≠ 0 := by
    rw [hd]
    exact ne_of_gt (Real.sqrt_pos.mpr hpos)
  rw [if_neg hd0]
  dsimp only
  have hdd : d ^ 2 = dx * dx + dy * dy := by
    rw [hd]
    exact Real.sq_sqrt hpos.le
  have e1 : (c.lat - dy / d * r / 111320 - c.lat) * 111320 = -(dy / d * r) := by
    ring
  have e2 : (c.lng - dx / d * r / M - c.lng) * M = -(dx / d * r) := by
    have h : c.lng - dx / d * r / M - c.lng = -(dx / d * r / M) := by ring
    rw [h, neg_mul, div_mul_cancel₀ _ hm']
  rw [e1, e2]
  have harg : (-(dy / d * r)) ^ 2 + (-(dx / d * r)) ^ 2 = r ^ 2 := by
    have expand : (-(dy / d * r)) ^ 2 + (-(dx / d * r)) ^ 2 =
        (dx * dx + dy * dy) * r ^ 2 / d ^ 2 := by
      field_simp
      ring
    rw [expand, ← hdd, mul_comm, mul_div_assoc,
      div_self (pow_ne_zero 2 hd0), mul_one]
  rw [harg, Real.sqrt_sq hr]

theorem edgePoint_affine (p c : Position) (r : ℝ)
    (hm : metersPerDegreeLng c.lat ≠ 0) (hpc : p ≠ c) :
    getCircleEdgePoint p c r defaultTransform =
      (p.lat + (1 - r / planarDistanceAt c.lat (defaultTransform p)
          (defaultTransform c)) * (c.lat - p.lat),
       p.lng + (1 - r / planarDistanceAt c.lat (defaultTransform p)
          (defaultTransform c)) * (c.lng - p.lng)) := by
  have hm' : (111320 : ℝ) * Real.cos (c.lat * Real.pi / 180) ≠ 0 := by
    simpa [metersPerDegreeLng] using hm
  have hpos := edgeVec_pos p c hm' hpc
  rw [planarDistanceAt_fromCenter]
  simp only [getCircleEdgePoint, defaultTransform]
  set M : ℝ := 111320 * Real.cos (c.lat * Real.pi / 180) with hM
  set dx : ℝ := (c.lng - p.lng) * M with hdx
  set dy : ℝ := (c.lat - p.lat) * 111320 with hdy
  set d : ℝ := Real.sqrt (dx * dx + dy * dy) with hd
  have hd0 : d ≠ 0 := by
    rw [hd]
    exact ne_of_gt (Real.sqrt_pos.mpr hpos)
  rw [if_neg hd0]
  have c1 : c.lat - dy / d * r / 111320 =
      p.lat + (1 - r / d) * (c.lat - p.lat) := by
    rw [hdy]
    field_simp
    ring
  have c2 : c.lng - dx / d * r / M = p.lng + (1 - r / d) * (c.lng - p.lng) := by
    rw [hdx]
    field_simp
    ring
  rw [c1, c2]

theorem planarDistanceAt_pos (p c : Position)
    (hm : metersPerDegreeLng c.lat ≠ 0) (hpc : p ≠ c) :
    0 < planarDistanceAt c.lat (defaultTransform p) (defaultTransform c) := by
  have hm' : (111320 : ℝ) * Real.cos (c.lat * Real.pi / 180) ≠ 0 := by
    simpa [metersPerDegreeLng] using hm
  rw [planarDistanceAt_fromCenter]
  exact Real.sqrt_pos.mpr (edgeVec_pos p c hm' hpc)

/-- Claim C5 counterexample: with `from = (0, -1/111320)` and
`center = (0, 0)` — distinct points at planar distance 1 m — and radius 2 m,
the point returned by `getCircleEdgePoint` does NOT lie on the segment
between `from` and `center` (it lies beyond `from`), refuting the claim that
it does for every `from ≠ center`. -/
theorem getCircleEdgePoint_not_on_segment :
    (⟨0, -(1 / 111320)⟩ : Position) ≠ (⟨0, 0⟩ : Position) ∧
    ¬ onSegment
        (getCircleEdgePoint ⟨0, -(1 / 111320)⟩ ⟨0, 0⟩ 2 defaultTransform)
        (defaultTransform ⟨0, -(1 / 111320)⟩) (defaultTransform ⟨0, 0⟩) := by
  constructor
  · intro h
    have := congrArg Position.lng h
    norm_num at this
  · have hedge : getCircleEdgePoint ⟨0, -(1 / 111320)⟩ ⟨0, 0⟩ 2
        defaultTransform = ((0 : ℝ), -(2 / 111320)) := by
      simp only [getCircleEdgePoint, defaultTransform]
      norm_num [Real.sqrt_one]
    rw [hedge]
    rintro ⟨u, hu0, hu1, hq⟩
    have h2 := congrArg Prod.snd hq
    simp only [defaultTransform] at h2
    norm_num at h2
    -- h2 forces u = -1, contradicting 0 ≤ u
    nlinarith [h2, hu0]

/-- Claim C5 (amended): for `from ≠ center` (with radius nonnegative and a
nonzero meters-per-degree-longitude factor at the center latitude) the
returned point lies at planar distance exactly `radiusMeters` from `center`,
and it lies on the segment between `from` and `center` provided `from` is at
least `radiusMeters` away from `center`; in the degenerate case
`from = center` it returns `center` unchanged. -/
theorem getCircleEdgePoint_spec (p c : Position) (r : ℝ) (hr : 0 ≤ r)
    (hm : metersPerDegreeLng c.lat ≠ 0) :
    (p ≠ c →
      planarDistanceAt c.lat (getCircleEdgePoint p c r defaultTransform)
          (defaultTransform c) = r ∧
      (r ≤ planarDistanceAt c.lat (defaultTransform p) (defaultTransform c) →
        onSegment (getCircleEdgePoint p c r defaultTransform)
          (defaultTransform p) (defaultTransform c))) ∧
    (p = c → getCircleEdgePoint p c r defaultTransform = defaultTransform c) := by
  constructor
  · intro hpc
    refine ⟨edgePoint_planar_dist p c r hr hm hpc, fun hrd => ?_⟩
    have hD := planarDistanceAt_pos p c hm hpc
    refine ⟨1 - r / planarDistanceAt c.lat (defaultTransform p)
        (defaultTransform c), ?_, ?_, ?_⟩
    · have : r / planarDistanceAt c.lat (defaultTransform p)
          (defaultTransform c) ≤ 1 := (div_le_one hD).mpr hrd
      linarith
    · have : 0 ≤ r / planarDistanceAt c.lat (defaultTransform p)
          (defaultTransform c) := div_nonneg hr hD.le
      linarith
    · rw [edgePoint_affine p c r hm hpc]
      rfl
  · intro hpc
    subst hpc
    simp [getCircleEdgePoint, defaultTransform]

theorem getCircleEdgePoint_spec_witness :
    ((⟨0, 1⟩ : Position) ≠ (⟨0, 0⟩ : Position) →
      planarDistanceAt (0 : ℝ)
          (getCircleEdgePoint ⟨0, 1⟩ ⟨0, 0⟩ 37.5 defaultTransform)
          (defaultTransform ⟨0, 0⟩) = 37.5 ∧
      (37.5 ≤ planarDistanceAt (0 : ℝ) (defaultTransform (⟨0, 1⟩ : Position))
          (defaultTransform (⟨0, 0⟩ : Position)) →
        onSegment (getCircleEdgePoint ⟨0, 1⟩ ⟨0, 0⟩ 37.5 defaultTransform)
          (defaultTransform ⟨0, 1⟩) (defaultTransform ⟨0, 0⟩))) ∧
    ((⟨0, 1⟩ : Position) = (⟨0, 0⟩ : Position) →
      getCircleEdgePoint ⟨0, 1⟩ ⟨0, 0⟩ 37.5 defaultTransform =
        defaultTransform ⟨0, 0⟩) :=
  getCircleEdgePoint_spec ⟨0, 1⟩ ⟨0, 0⟩ 37.5 (by norm_num)
    (by simp [metersPerDegreeLng])

/-! ### Segment endpoints and symbol boundaries (C6) -/

theorem createCoursePolylines_cons (course : Course) (t : Position → Coord)
    (c0 : Control) (rest : List Control) (hc : course.controls = c0 :: rest) :
    createCoursePolylines course t =
      (getStartTriangleVertex course.start (some c0.position) t,
       getCircleEdgePoint course.start c0.position 37.5 t) ::
      ((((c0 :: rest).zip rest).map fun pc =>
          (getCircleEdgePoint pc.2.position pc.1.position 37.5 t,
           getCircleEdgePoint pc.1.position pc.2.position 37.5 t)) ++
       [(getCircleEdgePoint course.finish
           ((c0 :: rest).getLastD c0).position 37.5 t,
         getFinishEdgePoint ((c0 :: rest).getLastD c0).position
           course.finish t)]) := by
  unfold createCoursePolylines
  rw [hc]

theorem midSegments_getD (t : Position → Coord) (c0 : Control)
    (rest : List Control) (i : ℕ) (h : i < rest.length) :
    (((c0 :: rest).zip rest).map fun pc =>
        (getCircleEdgePoint pc.2.position pc.1.position 37.5 t,
         getCircleEdgePoint pc.1.position pc.2.position 37.5 t)).getD i
      defaultSegment =
      (getCircleEdgePoint ((c0 :: rest).getD (i + 1) defaultControl).position
         ((c0 :: rest).getD i defaultControl).position 37.5 t,
       getCircleEdgePoint ((c0 :: rest).getD i defaultControl).position
         ((c0 :: rest).getD (i + 1) defaultControl).position 37.5 t) := by
  induction rest generalizing c0 i with
  | nil => exact absurd h (by simp)
  | cons c1 rest ih =>
    cases i with
    | zero => rfl
    | succ i =>
      have h' : i < rest.length := by simpa using h
      simpa using ih c1 i h'

/-- Claim C6 counterexample: in a course whose two controls share one
position, the middle segment returned by `createCoursePolylines` has its
endpoint at the shared control center itself — planar distance 0 < 37.5 m
from a control circle center, i.e. strictly inside a control circle — so the
claim that no segment endpoint falls strictly inside any control circle is
false for this course. -/
theorem segmentEndpoint_strictlyInside_counterexample :
    ((createCoursePolylines c6course defaultTransform).getD 1
        defaultSegment).1 =
      defaultTransform (c6course.controls.headI).position ∧
    planarDistanceAt (c6course.controls.headI).position.lat
      ((createCoursePolylines c6course defaultTransform).getD 1
        defaultSegment).1
      (defaultTransform (c6course.controls.headI).position) < 37.5 := by
  have hmid : ((createCoursePolylines c6course defaultTransform).getD 1
      defaultSegment).1 = ((0 : ℝ), (0 : ℝ)) := by
    rw [createCoursePolylines_cons c6course defaultTransform
      ⟨"x1", "31", 1, ⟨0, 0⟩⟩ [⟨"x2", "32", 2, ⟨0, 0⟩⟩] rfl]
    rw [List.getD_cons_succ]
    simp [getCircleEdgePoint, defaultTransform]
  have hhead : defaultTransform (c6course.controls.headI).position =
      ((0 : ℝ), (0 : ℝ)) := rfl
  refine ⟨by rw [hmid, hhead], ?_⟩
  rw [hmid, hhead]
  have : planarDistanceAt (c6course.controls.headI).position.lat
      ((0 : ℝ), (0 : ℝ)) ((0 : ℝ), (0 : ℝ)) = 0 := by
    simp [planarDistanceAt]
  rw [this]
  norm_num

/-- Claim C6 (amended): every endpoint of a segment lies exactly on the
boundary of the circle it was trimmed against — distance exactly 37.5 m from
the centers of the two controls for a mid-course segment, 37.5 m from the
first/last control for the ends of the first/last segment, and 45 m from the
finish for the last segment's end — provided the two entities defining the
segment occupy distinct positions (and the meters-per-degree-longitude factor
is nonzero there).  Endpoints can however fall strictly inside OTHER,
overlapping symbols' circles (see the counterexample), and the first segment
starts at the start triangle's vertex rather than on a circle boundary. -/
theorem createCoursePolylines_endpoints (course : Course)
    (hne : course.controls ≠ []) :
    (∀ i, i + 1 < course.controls.length →
      (course.controls.getD (i + 1) defaultControl).position ≠
        (course.controls.getD i defaultControl).position →
      metersPerDegreeLng
          (course.controls.getD i defaultControl).position.lat ≠ 0 →
      metersPerDegreeLng
          (course.controls.getD (i + 1) defaultControl).position.lat ≠ 0 →
      planarDistanceAt (course.controls.getD i defaultControl).position.lat
          ((createCoursePolylines course defaultTransform).getD (i + 1)
            defaultSegment).1
          (defaultTransform
            (course.controls.getD i defaultControl).position) = 37.5 ∧
      planarDistanceAt
          (course.controls.getD (i + 1) defaultControl).position.lat
          ((createCoursePolylines course defaultTransform).getD (i + 1)
            defaultSegment).2
          (defaultTransform
            (course.controls.getD (i + 1) defaultControl).position) = 37.5) ∧
    (course.start ≠ (course.controls.getD 0 defaultControl).position →
      metersPerDegreeLng
          (course.controls.getD 0 defaultControl).position.lat ≠ 0 →
      planarDistanceAt (course.controls.getD 0 defaultControl).position.lat
          ((createCoursePolylines course defaultTransform).headI).2
          (defaultTransform
            (course.controls.getD 0 defaultControl).position) = 37.5) ∧
    (course.finish ≠ (course.controls.getLastD defaultControl).position →
      metersPerDegreeLng
          (course.controls.getLastD defaultControl).position.lat ≠ 0 →
      metersPerDegreeLng course.finish.lat ≠ 0 →
      planarDistanceAt
          (course.controls.getLastD defaultControl).position.lat
          ((createCoursePolylines course defaultTransform).getLastD
            defaultSegment).1
          (defaultTransform
            (course.controls.getLastD defaultControl).position) = 37.5 ∧
      planarDistanceAt course.finish.lat
          ((createCoursePolylines course defaultTransform).getLastD
            defaultSegment).2
          (defaultTransform course.finish) = 45) := by
  obtain ⟨c0, rest, hc⟩ : ∃ c0 rest, course.controls = c0 :: rest := by
    cases h : course.controls with
    | nil => exact absurd h hne
    | cons a l => exact ⟨a, l, rfl⟩
  rw [hc, createCoursePolylines_cons course defaultTransform c0 rest hc]
  refine ⟨fun i hi hnep hm1 hm2 => ?_, fun hnes hm0 => ?_,
    fun hnef hml hmf => ?_⟩
  · have hi' : i < rest.length := by simpa using hi
    rw [List.getD_cons_succ,
      List.getD_append _ _ _ _ (by simp [List.length_zip]; omega),
      midSegments_getD defaultTransform c0 rest i hi']
    exact ⟨edgePoint_planar_dist _ _ 37.5 (by norm_num) hm1 hnep,
      edgePoint_planar_dist _ _ 37.5 (by norm_num) hm2 (Ne.symm hnep)⟩
  · exact edgePoint_planar_dist course.start c0.position 37.5
      (by norm_num) hm0 hnes
  · rw [← List.cons_append, List.getLastD_concat]
    simp only [List.getLastD_cons] at hnef hml ⊢
    exact ⟨edgePoint_planar_dist course.finish (rest.getLastD c0).position
        37.5 (by norm_num) hml hnef,
      edgePoint_planar_dist (rest.getLastD c0).position course.finish 45
        (by norm_num) hmf (Ne.symm hnef)⟩

theorem createCoursePolylines_endpoints_witness :
    (∀ i, i + 1 < c6wcourse.controls.length →
      (c6wcourse.controls.getD (i + 1) defaultControl).position ≠
        (c6wcourse.controls.getD i defaultControl).position →
      metersPerDegreeLng
          (c6wcourse.controls.getD i defaultControl).position.lat ≠ 0 →
      metersPerDegreeLng
          (c6wcourse.controls.getD (i + 1) defaultControl).position.lat ≠ 0 →
      planarDistanceAt (c6wcourse.controls.getD i defaultControl).position.lat
          ((createCoursePolylines c6wcourse defaultTransform).getD (i + 1)
            defaultSegment).1
          (defaultTransform
            (c6wcourse.controls.getD i defaultControl).position) = 37.5 ∧
      planarDistanceAt
          (c6wcourse.controls.getD (i + 1) defaultControl).position.lat
          ((createCoursePolylines c6wcourse defaultTransform).getD (i + 1)
            defaultSegment).2
          (defaultTransform
            (c6wcourse.controls.getD (i + 1) defaultControl).position) = 37.5) ∧
    (c6wcourse.start ≠ (c6wcourse.controls.getD 0 defaultControl).position →
      metersPerDegreeLng
          (c6wcourse.controls.getD 0 defaultControl).position.lat ≠ 0 →
      planarDistanceAt (c6wcourse.controls.getD 0 defaultControl).position.lat
          ((createCoursePolylines c6wcourse defaultTransform).headI).2
          (defaultTransform
            (c6wcourse.controls.getD 0 defaultControl).position) = 37.5) ∧
    (c6wcourse.finish ≠ (c6wcourse.controls.getLastD defaultControl).position →
      metersPerDegreeLng
          (c6wcourse.controls.getLastD defaultControl).position.lat ≠ 0 →
      metersPerDegreeLng c6wcourse.finish.lat ≠ 0 →
      planarDistanceAt
          (c6wcourse.controls.getLastD defaultControl).position.lat
          ((createCoursePolylines c6wcourse defaultTransform).getLastD
            defaultSegment).1
          (defaultTransform
            (c6wcourse.controls.getLastD defaultControl).position) = 37.5 ∧
      planarDistanceAt c6wcourse.finish.lat
          ((createCoursePolylines c6wcourse defaultTransform).getLastD
            defaultSegment).2
          (defaultTransform c6wcourse.finish) = 45) :=
  createCoursePolylines_endpoints c6wcourse (by simp [c6wcourse])

/-! ### Entity deduplication (C7) -/

theorem ucKey_addToEntry (co : Course) (c : Control) (u : UniqueControl) :
    ucKey (addToEntry co c u) = ucKey u := rfl

theorem extractUniqueControls_eq_buildUC (courses : List Course) :
    extractUniqueControls courses = buildUC (coursePairs courses) [] := by
  suffices h : ∀ acc : List UniqueControl,
      courses.foldl (fun a course => course.controls.foldl
        (fun a c => insertCtrl a course c) a) acc =
      buildUC (coursePairs courses) acc from h []
  induction courses with
  | nil => intro acc; rfl
  | cons co cos ih =>
    intro acc
    rw [List.foldl_cons, ih]
    unfold buildUC coursePairs
    rw [List.flatMap_cons, List.foldl_append, List.foldl_map]

theorem pairwise_key_inj {l : List UniqueControl}
    (hp : l.Pairwise fun a b => ucKey a ≠ ucKey b) :
    ∀ u ∈ l, ∀ v ∈ l, ucKey u = ucKey v → u = v := by
  induction l with
  | nil => simp
  | cons a l ih =>
    rcases List.pairwise_cons.mp hp with ⟨ha, hl⟩
    intro u hu v hv heq
    rcases List.mem_cons.mp hu with h1 | h1
    · rcases List.mem_cons.mp hv with h2 | h2
      · rw [h1, h2]
      · exact absurd (by rw [← h1]; exact heq) (ha v h2)
    · rcases List.mem_cons.mp hv with h2 | h2
      · exact absurd (by rw [← h2]; exact heq.symm) (ha u h1)
      · exact ih hl u h1 v h2 heq

theorem mem_insertCtrl_keys {acc : List UniqueControl} {co : Course}
    {c : Control} {u : UniqueControl} (hu : u ∈ insertCtrl acc co c) :
    (∃ v ∈ acc, ucKey v = ucKey u) ∨ ucKey u = ctrlKey c := by
  unfold insertCtrl at hu
  split_ifs at hu with he
  · rcases List.mem_map.mp hu with ⟨v, hv, rfl⟩
    by_cases hk : ucKey v = ctrlKey c
    · rw [if_pos hk]
      exact Or.inr hk
    · rw [if_neg hk]
      exact Or.inl ⟨v, hv, rfl⟩
  · rcases List.mem_append.mp hu with hu | hu
    · exact Or.inl ⟨u, hu, rfl⟩
    · have := List.mem_singleton.mp hu
      subst this
      exact Or.inr rfl

theorem insertCtrl_existing {acc : List UniqueControl} {v : UniqueControl}
    (hv : v ∈ acc) (co : Course) (c : Control) :
    (ucKey v = ctrlKey c → addToEntry co c v ∈ insertCtrl acc co c) ∧
    (ucKey v ≠ ctrlKey c → v ∈ insertCtrl acc co c) := by
  constructor
  · intro hk
    unfold insertCtrl
    rw [if_pos ⟨v, hv, hk⟩]
    exact List.mem_map.mpr ⟨v, hv, by rw [if_pos hk]⟩
  · intro hk
    unfold insertCtrl
    split_ifs with he
    · exact List.mem_map.mpr ⟨v, hv, by rw [if_neg hk]⟩
    · exact List.mem_append_left _ hv

theorem insertCtrl_pairwise {acc : List UniqueControl}
    (hp : acc.Pairwise fun a b => ucKey a ≠ ucKey b) (co : Course)
    (c : Control) :
    (insertCtrl acc co c).Pairwise fun a b => ucKey a ≠ ucKey b := by
  have hkey : ∀ u : UniqueControl,
      ucKey (if ucKey u = ctrlKey c then addToEntry co c u else u) = ucKey u := by
    intro u
    split_ifs <;> rfl
  unfold insertCtrl
  split_ifs with he
  · exact hp.map _ (fun a b hab => by rw [hkey a, hkey b]; exact hab)
  · rw [List.pairwise_append]
    push_neg at he
    refine ⟨hp, List.pairwise_singleton _ _, fun a ha b hb => ?_⟩
    have := List.mem_singleton.mp hb
    subst this
    exact fun hk => he a ha (by rw [hk]; rfl)

theorem buildUC_pairwise (ps : List (Course × Control))
    (acc : List UniqueControl)
    (hp : acc.Pairwise fun a b => ucKey a ≠ ucKey b) :
    (buildUC ps acc).Pairwise fun a b => ucKey a ≠ ucKey b := by
  induction ps generalizing acc with
  | nil => exact hp
  | cons p ps ih => exact ih _ (insertCtrl_pairwise hp p.1 p.2)

theorem buildUC_key_sound (ps : List (Course × Control))
    (acc : List UniqueControl) {u : UniqueControl} (hu : u ∈ buildUC ps acc) :
    (∃ v ∈ acc, ucKey v = ucKey u) ∨ ∃ p ∈ ps, pairKey p = ucKey u := by
  induction ps generalizing acc with
  | nil => exact Or.inl ⟨u, hu, rfl⟩
  | cons p ps ih =>
    rcases ih _ hu with ⟨v, hv, hk⟩ | ⟨q, hq, hk⟩
    · rcases mem_insertCtrl_keys hv with ⟨w, hw, hk2⟩ | hk2
      · exact Or.inl ⟨w, hw, hk2.trans hk⟩
      · exact Or.inr ⟨p, List.mem_cons_self p ps, (show pairKey p = ucKey v from hk2.symm).trans hk⟩
    · exact Or.inr ⟨q, List.mem_cons_of_mem _ hq, hk⟩

theorem buildUC_key_persists (ps : List (Course × Control))
    (acc : List UniqueControl) {v : UniqueControl} (hv : v ∈ acc) :
    ∃ u ∈ buildUC ps acc, ucKey u = ucKey v := by
  induction ps generalizing acc v with
  | nil => exact ⟨v, hv, rfl⟩
  | cons p ps ih =>
    by_cases hk : ucKey v = ctrlKey p.2
    · exact ih _ (v := addToEntry p.1 p.2 v) ((insertCtrl_existing hv p.1 p.2).1 hk)
    · exact ih _ (v := v) ((insertCtrl_existing hv p.1 p.2).2 hk)

theorem buildUC_key_exists (ps : List (Course × Control))
    (acc : List UniqueControl) {p : Course × Control} (hp : p ∈ ps) :
    ∃ u ∈ buildUC ps acc, ucKey u = pairKey p := by
  induction ps generalizing acc with
  | nil => simp at hp
  | cons q ps ih =>
    rcases List.mem_cons.mp hp with rfl | hp
    · have hw : ∃ w ∈ insertCtrl acc p.1 p.2, ucKey w = ctrlKey p.2 := by
        unfold insertCtrl
        split_ifs with he
        · obtain ⟨v, hv, hk⟩ := he
          exact ⟨_, List.mem_map.mpr ⟨v, hv, rfl⟩, by rw [if_pos hk]; exact hk⟩
        · exact ⟨_, List.mem_append_right _ (List.mem_singleton.mpr rfl), rfl⟩
      obtain ⟨w, hw, hk⟩ := hw
      obtain ⟨u, hu, he2⟩ := buildUC_key_persists ps _ hw
      exact ⟨u, hu, he2.trans hk⟩
    · exact ih _ hp

theorem buildUC_existing (ps : List (Course × Control))
    (acc : List UniqueControl) {v : UniqueControl} (K : String × Position)
    (hK : ucKey v = K) (hv : v ∈ acc) :
    ∃ u ∈ buildUC ps acc, ucKey u = K ∧
      u.courses = v.courses ++ (keyPairs K ps).map mkRef ∧
      u.controlIds =
        ((keyPairs K ps).map fun p => p.2.id).foldl addId v.controlIds := by
  induction ps generalizing acc v with
  | nil => exact ⟨v, hv, hK, by simp [keyPairs], by simp [keyPairs]⟩
  | cons p ps ih =>
    by_cases hk : pairKey p = K
    · have hvk : ucKey v = ctrlKey p.2 := hK.trans hk.symm
      have hv' := (insertCtrl_existing hv p.1 p.2).1 hvk
      obtain ⟨u, hu, hkey, hcourses, hids⟩ :=
        ih _ (v := addToEntry p.1 p.2 v) hK hv'
      refine ⟨u, hu, hkey, ?_, ?_⟩
      · rw [hcourses]
        have hvc : (addToEntry p.1 p.2 v).courses =
            v.courses ++ [mkRef p] := rfl
        rw [hvc, List.append_assoc]
        congr 1
        simp [keyPairs, hk]
      · rw [hids]
        have hvi : (addToEntry p.1 p.2 v).controlIds =
            addId v.controlIds p.2.id := rfl
        rw [hvi]
        have hkp : keyPairs K (p :: ps) = p :: keyPairs K ps := by
          simp [keyPairs, hk]
        rw [hkp, List.map_cons, List.foldl_cons]
    · have hvk : ucKey v ≠ ctrlKey p.2 :=
        fun h => hk ((show pairKey p = ucKey v from h.symm).trans hK)
      have hv' := (insertCtrl_existing hv p.1 p.2).2 hvk
      obtain ⟨u, hu, hkey, hcourses, hids⟩ := ih _ (v := v) hK hv'
      have hkp : keyPairs K (p :: ps) = keyPairs K ps := by
        simp [keyPairs, hk]
      exact ⟨u, hu, hkey, by rw [hkp]; exact hcourses, by rw [hkp]; exact hids⟩

theorem buildUC_fresh (ps : List (Course × Control)) :
    ∀ (acc : List UniqueControl) (K : String × Position),
    (acc.Pairwise fun a b => ucKey a ≠ ucKey b) →
    (∀ v ∈ acc, ucKey v ≠ K) → ∀ {u : UniqueControl}, u ∈ buildUC ps acc →
    ucKey u = K →
    u.courses = (keyPairs K ps).map mkRef ∧
      u.controlIds = ((keyPairs K ps).map fun p => p.2.id).foldl addId [] := by
  induction ps with
  | nil =>
    intro acc K _ hnoK u hu hk
    exact absurd hk (hnoK u hu)
  | cons p ps ih =>
    intro acc K hp hnoK u hu hk
    by_cases hpk : pairKey p = K
    · have hcond : ¬ ∃ w ∈ acc, ucKey w = ctrlKey p.2 := by
        rintro ⟨w, hw, hwk⟩
        exact hnoK w hw (hwk.trans hpk)
      have hacc' : insertCtrl acc p.1 p.2 =
          acc ++ [addToEntry p.1 p.2 ⟨p.2.code, p.2.position, [], []⟩] := by
        unfold insertCtrl
        rw [if_neg hcond]
      have heK : ucKey (addToEntry p.1 p.2
          ⟨p.2.code, p.2.position, [], []⟩) = K := hpk
      have hemem : addToEntry p.1 p.2 ⟨p.2.code, p.2.position, [], []⟩ ∈
          insertCtrl acc p.1 p.2 := by
        rw [hacc']
        exact List.mem_append_right _ (List.mem_singleton.mpr rfl)
      obtain ⟨u', hu', hk', hc', hi'⟩ := buildUC_existing ps _ K heK hemem
      have hpfinal := buildUC_pairwise ps _ (insertCtrl_pairwise hp p.1 p.2)
      have huu : u = u' := pairwise_key_inj hpfinal u hu u' hu'
        (hk.trans hk'.symm)
      have hkp : keyPairs K (p :: ps) = p :: keyPairs K ps := by
        simp [keyPairs, hpk]
      constructor
      · rw [huu, hc', hkp, List.map_cons]
        rfl
      · rw [huu, hi', hkp, List.map_cons, List.foldl_cons]
        rfl
    · have hnoK' : ∀ v ∈ insertCtrl acc p.1 p.2, ucKey v ≠ K := by
        intro v hv hvk
        rcases mem_insertCtrl_keys hv with ⟨w, hw, hwk⟩ | hwk
        · exact hnoK w hw (hwk.trans hvk)
        · exact hpk ((show pairKey p = ucKey v from hwk.symm).trans hvk)
      have hkp : keyPairs K (p :: ps) = keyPairs K ps := by
        simp [keyPairs, hpk]
      rw [hkp]
      exact ih _ K (insertCtrl_pairwise hp p.1 p.2) hnoK' hu hk

theorem mem_addId {l : List String} {i j : String} :
    i ∈ addId l j ↔ i ∈ l ∨ i = j := by
  unfold addId
  split_ifs with h
  · constructor
    · exact Or.inl
    · rintro (hi | rfl)
      exacts [hi, h]
  · simp

theorem mem_foldl_addId (xs : List String) (l : List String) (i : String) :
    i ∈ xs.foldl addId l ↔ i ∈ l ∨ i ∈ xs := by
  induction xs generalizing l with
  | nil => simp
  | cons x xs ih =>
    rw [List.foldl_cons, ih, mem_addId]
    simp [or_assoc, or_comm]
    tauto

theorem mem_keyPairs {K : String × Position} {ps : List (Course × Control)}
    {p : Course × Control} :
    p ∈ keyPairs K ps ↔ p ∈ ps ∧ pairKey p = K := by
  induction ps with
  | nil => simp [keyPairs]
  | cons q ps ih =>
    simp only [keyPairs]
    split_ifs with hq
    · simp only [List.mem_cons, ih]
      constructor
      · rintro (rfl | ⟨hp, hk⟩)
        · exact ⟨Or.inl rfl, hq⟩
        · exact ⟨Or.inr hp, hk⟩
      · rintro ⟨rfl | hp, hk⟩
        · exact Or.inl rfl
        · exact Or.inr ⟨hp, hk⟩
    · rw [ih]
      constructor
      · rintro ⟨hp, hk⟩
        exact ⟨List.mem_cons_of_mem _ hp, hk⟩
      · rintro ⟨hp, hk⟩
        rcases List.mem_cons.mp hp with rfl | hp
        · exact absurd hk hq
        · exact ⟨hp, hk⟩

theorem mem_keyControls {K : String × Position} {cs : List Control}
    {c : Control} :
    c ∈ keyControls K cs ↔ c ∈ cs ∧ ctrlKey c = K := by
  induction cs with
  | nil => simp [keyControls]
  | cons q cs ih =>
    simp only [keyControls]
    split_ifs with hq
    · simp only [List.mem_cons, ih]
      constructor
      · rintro (rfl | ⟨hp, hk⟩)
        · exact ⟨Or.inl rfl, hq⟩
        · exact ⟨Or.inr hp, hk⟩
      · rintro ⟨rfl | hp, hk⟩
        · exact Or.inl rfl
        · exact Or.inr ⟨hp, hk⟩
    · rw [ih]
      constructor
      · rintro ⟨hp, hk⟩
        exact ⟨List.mem_cons_of_mem _ hp, hk⟩
      · rintro ⟨hp, hk⟩
        rcases List.mem_cons.mp hp with rfl | hp
        · exact absurd hk hq
        · exact ⟨hp, hk⟩

theorem keyPairs_append (K : String × Position)
    (xs ys : List (Course × Control)) :
    keyPairs K (xs ++ ys) = keyPairs K xs ++ keyPairs K ys := by
  induction xs with
  | nil => rfl
  | cons x xs ih =>
    rw [List.cons_append]
    simp only [keyPairs]
    split_ifs with hx
    · rw [List.cons_append, ih]
    · exact ih

theorem keyPairs_map_pair (K : String × Position) (co : Course)
    (cs : List Control) :
    keyPairs K (cs.map fun c => (co, c)) =
      (keyControls K cs).map fun c => (co, c) := by
  induction cs with
  | nil => rfl
  | cons c cs ih =>
    simp only [List.map_cons]
    simp only [keyPairs, keyControls]
    split_ifs with h1 h2 h2
    · rw [List.map_cons, ih]
    · exact absurd h1 h2
    · exact absurd h2 h1
    · exact ih

theorem keyPairs_coursePairs_cons (K : String × Position) (co : Course)
    (courses : List Course) :
    keyPairs K (coursePairs (co :: courses)) =
      ((keyControls K co.controls).map fun c => (co, c)) ++
        keyPairs K (coursePairs courses) := by
  show keyPairs K ((co :: courses).flatMap fun course =>
    course.controls.map fun c => (course, c)) = _
  rw [List.flatMap_cons, keyPairs_append, keyPairs_map_pair]
  rfl

theorem keyPairs_length_of_one (K : String × Position) (courses : List Course)
    (hone : ∀ co ∈ courses, (keyControls K co.controls).length = 1) :
    (keyPairs K (coursePairs courses)).length = courses.length := by
  induction courses with
  | nil => rfl
  | cons co cos ih =>
    rw [keyPairs_coursePairs_cons, List.length_append, List.length_map,
      hone co (List.mem_cons_self co cos),
      ih fun c hc => hone c (List.mem_cons_of_mem _ hc), List.length_cons]
    omega

theorem mem_coursePairs {courses : List Course} {co : Course} {c : Control} :
    (co, c) ∈ coursePairs courses ↔ co ∈ courses ∧ c ∈ co.controls := by
  unfold coursePairs
  rw [List.mem_flatMap]
  constructor
  · rintro ⟨co', hco', hmem⟩
    rcases List.mem_map.mp hmem with ⟨c', hc', heq⟩
    obtain ⟨rfl, rfl⟩ := Prod.mk.injEq .. ▸ heq.symm
    exact ⟨hco', hc'⟩
  · rintro ⟨hco, hc⟩
    exact ⟨co, hco, List.mem_map.mpr ⟨c, hc, rfl⟩⟩

theorem extractUC_content (courses : List Course) {u : UniqueControl}
    (hu : u ∈ extractUniqueControls courses) :
    u.courses = (keyPairs (ucKey u) (coursePairs courses)).map mkRef ∧
    u.controlIds = ((keyPairs (ucKey u) (coursePairs courses)).map
      fun p => p.2.id).foldl addId [] := by
  rw [extractUniqueControls_eq_buildUC] at hu
  exact buildUC_fresh _ [] (ucKey u) List.Pairwise.nil (by simp) hu rfl

theorem extractUC_pairwise (courses : List Course) :
    (extractUniqueControls courses).Pairwise
      fun a b => ucKey a ≠ ucKey b := by
  rw [extractUniqueControls_eq_buildUC]
  exact buildUC_pairwise _ [] List.Pairwise.nil

/-- Claim C7: deduplication of controls by (code, position).  For a nonempty
course list in which every course contains exactly one control with key `K`,
`extractUniqueControls` returns exactly one `UniqueControl` with that key; its
`courses` list has one entry per course, and it contains every matching
control's id.  Moreover, assuming control ids are globally unique, every
control id of the input appears in exactly one returned `UniqueControl`. -/
theorem extractUniqueControls_dedup (courses : List Course)
    (K : String × Position) (hne : courses ≠ [])
    (hone : ∀ co ∈ courses, (keyControls K co.controls).length = 1) :
    (∃ u ∈ extractUniqueControls courses, ucKey u = K ∧
      (∀ u' ∈ extractUniqueControls courses, ucKey u' = K → u' = u) ∧
      u.courses.length = courses.length ∧
      (∀ co ∈ courses, ∀ c ∈ co.controls, ctrlKey c = K →
        c.id ∈ u.controlIds)) ∧
    ((allControlIds courses).Nodup →
      ∀ co ∈ courses, ∀ c ∈ co.controls,
        ∃ u ∈ extractUniqueControls courses, c.id ∈ u.controlIds ∧
          ∀ u' ∈ extractUniqueControls courses,
            c.id ∈ u'.controlIds → u' = u) := by
  have hpair := extractUC_pairwise courses
  constructor
  · -- the unique entry with key K
    obtain ⟨co₀, hco₀⟩ := List.exists_mem_of_ne_nil courses hne
    obtain ⟨c₀, hc₀list⟩ := List.length_eq_one.mp (hone co₀ hco₀)
    have hc₀ : c₀ ∈ co₀.controls ∧ ctrlKey c₀ = K :=
      mem_keyControls.mp (hc₀list ▸ List.mem_singleton.mpr rfl)
    have hpmem : (co₀, c₀) ∈ coursePairs courses :=
      mem_coursePairs.mpr ⟨hco₀, hc₀.1⟩
    obtain ⟨u, hu, hk⟩ := buildUC_key_exists (coursePairs courses) [] hpmem
    rw [← extractUniqueControls_eq_buildUC] at hu
    have hkK : ucKey u = K := hk.trans hc₀.2
    obtain ⟨hcourses, hids⟩ := extractUC_content courses hu
    refine ⟨u, hu, hkK, fun u' hu' hk' => pairwise_key_inj hpair u' hu' u hu
      (hk'.trans hkK.symm), ?_, ?_⟩
    · rw [hcourses, List.length_map, hkK,
        keyPairs_length_of_one K courses hone]
    · intro co hco c hc hck
      have hmemK : (co, c) ∈ keyPairs (ucKey u) (coursePairs courses) := by
        rw [hkK]
        exact mem_keyPairs.mpr ⟨mem_coursePairs.mpr ⟨hco, hc⟩, hck⟩
      rw [hids]
      exact (mem_foldl_addId _ _ _).mpr
        (Or.inr (List.mem_map.mpr ⟨(co, c), hmemK, rfl⟩))
  · -- the id partition
    intro hnodup co hco c hc
    have hpmem : (co, c) ∈ coursePairs courses :=
      mem_coursePairs.mpr ⟨hco, hc⟩
    obtain ⟨u, hu, hk⟩ := buildUC_key_exists (coursePairs courses) [] hpmem
    rw [← extractUniqueControls_eq_buildUC] at hu
    obtain ⟨_, hids⟩ := extractUC_content courses hu
    have hcid : c.id ∈ u.controlIds := by
      rw [hids]
      refine (mem_foldl_addId _ _ _).mpr (Or.inr (List.mem_map.mpr
        ⟨(co, c), mem_keyPairs.mpr ⟨hpmem, hk.symm⟩, rfl⟩))
    refine ⟨u, hu, hcid, fun u' hu' hcid' => ?_⟩
    obtain ⟨_, hids'⟩ := extractUC_content courses hu'
    rw [hids'] at hcid'
    rcases (mem_foldl_addId _ _ _).mp hcid' with h | h
    · simp at h
    · obtain ⟨q, hq, hqid⟩ := List.mem_map.mp h
      have hqmem := mem_keyPairs.mp hq
      have hqp : q = (co, c) :=
        List.inj_on_of_nodup_map hnodup hqmem.1 hpmem hqid
      have : ucKey u' = pairKey (co, c) := by
        rw [← hqmem.2, hqp]
      exact pairwise_key_inj hpair u' hu' u hu (this.trans hk.symm)

theorem extractUniqueControls_dedup_witness :
    (∃ u ∈ extractUniqueControls [c7courseA, c7courseB],
      ucKey u = ("31", c7pos) ∧
      (∀ u' ∈ extractUniqueControls [c7courseA, c7courseB],
        ucKey u' = ("31", c7pos) → u' = u) ∧
      u.courses.length = ([c7courseA, c7courseB] : List Course).length ∧
      (∀ co ∈ [c7courseA, c7courseB], ∀ c ∈ co.controls,
        ctrlKey c = ("31", c7pos) → c.id ∈ u.controlIds)) ∧
    ((allControlIds [c7courseA, c7courseB]).Nodup →
      ∀ co ∈ [c7courseA, c7courseB], ∀ c ∈ co.controls,
        ∃ u ∈ extractUniqueControls [c7courseA, c7courseB],
          c.id ∈ u.controlIds ∧
          ∀ u' ∈ extractUniqueControls [c7courseA, c7courseB],
            c.id ∈ u'.controlIds → u' = u) :=
  extractUniqueControls_dedup [c7courseA, c7courseB] ("31", c7pos)
    (by simp)
    (by
      intro co hco
      rcases List.mem_cons.mp hco with rfl | hco
      · simp [keyControls, ctrlKey, c7courseA]
      · rcases List.mem_cons.mp hco with rfl | hco
        · simp [keyControls, ctrlKey, c7courseB]
        · simp at hco)

end ForestTeam
